import Mathlib

/-!
Verification of `update_phabricator_repositories.py`.

This file gives a shallow embedding of the core logic of the script:

* `_create_new_phabricator_callsign` (callsign allocator),
* `_retry` as instantiated for the phabricator repository query,
* `_get_repos_to_add_and_delete` (reconciliation of clone-url sets),
* `add_repository`, `delete_repository` and the add/delete loops of `main`
  (the sync pass), with the external registry's accept/reject behaviour
  for `repository.create` supplied as a parameter.

Strings are modelled as `List Char` (the script runs under Python 2 where
`str` is a byte string; all data involved is ASCII).  Python `set`s are
modelled as `Finset`, Python dicts as association lists with
insert-or-overwrite, and exceptions as explicit error values.
-/

/-- Strings of the script are modelled as lists of characters. -/
abbrev Str := List Char

/-- Membership test for the character class `[A-Z]` used by the regexes. -/
def isUpChar (c : Char) : Bool := decide ('A' ≤ c) && decide (c ≤ 'Z')

/-- Membership test for the character class `[0-9]` (`re.sub(r'[0-9]', ...)`). -/
def isDigitChar (c : Char) : Bool := decide ('0' ≤ c) && decide (c ≤ '9')

/-- Python 2 `str.upper()` on one byte: map `a`-`z` to `A`-`Z`, leave the
rest alone. -/
def upChar (c : Char) : Char :=
  if 'a' ≤ c ∧ c ≤ 'z' then Char.ofNat (c.toNat - 32) else c

/-- Lines 75 and 78 of the script: `repo_name.upper()` followed by
`re.sub(r'[0-9]', '', repo_name)`. -/
def normalizeName (s : Str) : Str :=
  (s.map upChar).filter (fun c => !isDigitChar c)

/-- Prepend a character to the first piece of a split (starting a fresh
piece when there is none). -/
def consHead (c : Char) : List (List Char) → List (List Char)
  | [] => [[c]]
  | w :: ws => (c :: w) :: ws

/-- Python's `re.split(r'[^A-Z]+', s)` (line 81): split on maximal nonempty
runs of non-uppercase characters.  An uppercase character extends the
current piece; a non-uppercase character that is last, or is followed by an
uppercase character, ends a separator run and contributes an empty piece
in front of the remaining split; other non-uppercase characters are within
a separator run and contribute nothing.  The result always has at least one
piece; an empty piece appears exactly at a leading or trailing separator
run (and a lone empty piece for the empty string), matching `re.split`. -/
def splitNonUp : List Char → List (List Char)
  | [] => [[]]
  | [c] => if isUpChar c then [[c]] else [[], []]
  | c :: d :: s =>
    if isUpChar c then consHead c (splitNonUp (d :: s))
    else if isUpChar d then [] :: splitNonUp (d :: s)
    else splitNonUp (d :: s)

/-- The noise word `'GROUP'` (line 84). -/
def groupWord : Str := "GROUP".data

/-- The noise word `'WEBSITE'` (line 86). -/
def websiteWord : Str := "WEBSITE".data

/-- `name_parts` as first computed on line 81 of the script. -/
def nameParts (repoName : Str) : List Str :=
  splitNonUp (normalizeName repoName)

/-- `name_parts` after the noise-word removal of lines 84-87.  Python's
`list.remove(x)` removes exactly the first occurrence of `x`, and is guarded
by an `in` test, which is what `List.erase` does. -/
def filteredParts (repoName : Str) : List Str :=
  ((nameParts repoName).erase groupWord).erase websiteWord

/-- Line 92: `''.join(w[:prefix_len + 1] for w in name_parts)` with
`n = prefix_len + 1`. -/
def candidateAt (parts : List Str) (n : Nat) : Str :=
  (parts.map (fun w => w.take n)).flatten

/-- `max(len(w) for w in name_parts)` for a nonempty `name_parts` (line 91);
over naturals the fold with base `0` agrees with Python's `max` on nonempty
input. -/
def maxWordLen (parts : List Str) : Nat :=
  parts.foldr (fun w m => Nat.max w.length m) 0

/-- The two exceptions the allocator can raise: `nameFail` models the
`NameError` of line 97 (search space exhausted), `valueFail` models the
`ValueError` that Python's `max` raises on line 91 when `name_parts` is
empty. -/
inductive AllocError where
  | nameFail
  | valueFail
deriving DecidableEq, Repr

/-- The loop of lines 91-94: try each prefix length in the given list in
order, returning the first candidate that is not among the existing
callsigns; `NameError` when the list is exhausted (line 97). -/
def tryLens (existing : List Str) (parts : List Str) : List Nat → Except AllocError Str
  | [] => .error .nameFail
  | n :: rest =>
    if candidateAt parts n ∈ existing then tryLens existing parts rest
    else .ok (candidateAt parts n)

/-- `_create_new_phabricator_callsign(repo_name, existing_callsigns)`
(lines 72-99).  `xrange(max(...))` with `prefix_len + 1` means prefix
lengths `1, 2, ..., maxWordLen` in increasing order; when the filtered part
list is empty, `max` of an empty sequence raises `ValueError`. -/
def createNewPhabricatorCallsign (repoName : Str) (existing : List Str) :
    Except AllocError Str :=
  match filteredParts repoName with
  | [] => .error .valueFail
  | _ :: _ =>
      tryLens existing (filteredParts repoName)
        ((List.range (maxWordLen (filteredParts repoName))).map (· + 1))

/-- One invocation of the command passed to `_retry`: it returns a value,
raises `socket.timeout`, or raises some other exception `e`. -/
inductive QueryOutcome (α ε : Type) where
  | ok (a : α)
  | timeout
  | failure (e : ε)
deriving DecidableEq, Repr

/-- What a `_retry(cmd, times, exceptions=(socket.timeout,))` call does:
returns a value, propagates `socket.timeout`, propagates another exception,
or falls off the loop (Python returns `None`; only possible for
`times = 0`). -/
inductive RetryResult (α ε : Type) where
  | ok (a : α)
  | raisedTimeout
  | raisedFailure (e : ε)
  | exhausted
deriving DecidableEq, Repr

/-- The loop of `_retry` (lines 44-51), instrumented with the number of
invocations of `cmd`.  `out i` is the outcome of the `i`-th invocation;
the first component is the overall result and the second the number of
attempts made.  A `socket.timeout` is re-raised when `i + 1 == times`
(no tries left) and otherwise retried immediately; any other exception is
not caught by the `except` clause and propagates at once. -/
def retryFrom (out : Nat → QueryOutcome α ε) : Nat → Nat → RetryResult α ε × Nat
  | _, 0 => (.exhausted, 0)
  | i, k + 1 =>
    match out i with
    | .ok a => (.ok a, 1)
    | .failure e => (.raisedFailure e, 1)
    | .timeout =>
      if k = 0 then (.raisedTimeout, 1)
      else
        let r := retryFrom out (i + 1) k
        (r.1, r.2 + 1)

/-- Line 139-141 of the script: `_retry(phabctl.repository.query, times=3,
exceptions=(socket.timeout,))`. -/
def retryQuery (out : Nat → QueryOutcome α ε) : RetryResult α ε × Nat :=
  retryFrom out 0 3

/-- The two repository kinds of `prefix_map` (lines 189-190). -/
inductive VcsType where
  | git
  | hg
deriving DecidableEq, Repr

/-- The commandline flags used by the pass (`--verbose`, `--dry_run`). -/
structure Options where
  verbose : Bool
  dryRun : Bool
deriving DecidableEq, Repr

/-- `url_to_callsign_map`, a Python dict, modelled as an association list
with unique keys kept in insertion order. -/
abbrev AssocMap := List (Str × Str)

/-- Python dict assignment `m[k] = v`: overwrite the value at `k` if `k` is
already a key, otherwise append the new binding. -/
def dinsert (k v : Str) : AssocMap → AssocMap
  | [] => [(k, v)]
  | p :: rest => if p.1 = k then (k, v) :: rest else p :: dinsert k v rest

/-- `dict((r['remoteURI'], r['callsign']) for r in info)` (lines 146-147):
build a dict by successive assignments, so a later binding of the same key
overwrites an earlier one. -/
def dictOfList (l : List (Str × Str)) : AssocMap :=
  l.foldl (fun m p => dinsert p.1 p.2 m) []

/-- `m.values()`, used as a set of callsigns on line 202. -/
def dictValues (m : AssocMap) : List Str := m.map Prod.snd

/-- The github prefix of `prefix_map` (line 189). -/
def githubUrlHead : Str := "https://github.com/Khan/".data

/-- The kiln prefix of `prefix_map` (line 190). -/
def kilnUrlHead : Str := "https://khanacademy.kilnhg.com/Code/".data

/-- Lines 194-195 (and 129-130): strip a trailing `.git`. -/
def stripDotGit (s : Str) : Str :=
  if s.length ≥ 4 ∧ s.drop (s.length - 4) = ".git".data then
    s.take (s.length - 4)
  else s

/-- The for/else loop over `prefix_map` (lines 191-199): find the hosting
service whose url prefix matches and derive the repository name; `none`
models the `NameError('Unknown repo type: ...')` of line 198.  The two
prefixes differ from their start, so no url matches both and the dict
iteration order of `iteritems()` is immaterial. -/
def parseRepoUrl (url : Str) : Option (VcsType × Str) :=
  if url.take githubUrlHead.length = githubUrlHead then
    some (.git, stripDotGit (url.drop githubUrlHead.length))
  else if url.take kilnUrlHead.length = kilnUrlHead then
    some (.hg, stripDotGit (url.drop kilnUrlHead.length))
  else
    none

/-- `os.path.join(repo_rootdir, vcs_type, name)` (line 203) for the
relative second and third components produced here. -/
def pathJoin3 (a b c : Str) : Str := a ++ [Char.ofNat 47] ++ b ++ [Char.ofNat 47] ++ c

/-- The string used for a `VcsType` in paths and in the create call. -/
def vcsStr : VcsType → Str
  | .git => "git".data
  | .hg => "hg".data

/-- The arguments of a `phabctl.repository.create` call (lines 207-210). -/
structure CreateCall where
  name : Str
  vcs : VcsType
  callsign : Str
  uri : Str
  tracking : Bool
  pullFrequency : Nat
  localPath : Str
deriving DecidableEq, Repr

/-- The data of the `Adding new repository ...` print on lines 204-205. -/
structure PrintRec where
  name : Str
  url : Str
  callsign : Str
  vcs : VcsType
  destdir : Str
deriving DecidableEq, Repr

/-- The exceptions `add_repository` can raise.  `unknownHost` is the
`NameError` of line 198, `allocName` the allocator's `NameError`,
`allocValue` the allocator's `ValueError`, and `api` the
`phabricator.APIError` of a rejected create call. -/
inductive AddError where
  | unknownHost
  | allocName
  | allocValue
  | api
deriving DecidableEq, Repr

/-- `add_repository` (lines 162-211).  `accepts` is the registry's
behaviour for `repository.create` (`false` meaning it raises `APIError`).
The first component collects the create calls actually issued to the
registry; on success the second component carries the print record of lines
204-205 and the updated `url_to_callsign_map` (line 211; note the map is
updated after a successful create, and also in dry-run mode, but not when
the create raises). -/
def mkCreateCall (rootdir url name : Str) (vcs : VcsType) (cs : Str) :
    CreateCall :=
  ⟨name, vcs, cs, url, true, 60, pathJoin3 rootdir (vcsStr vcs) name⟩

/-- The part of `add_repository` after the url prefix matched: lines
201-211 with the repository kind and name already derived. -/
def addParsed (accepts : CreateCall → Bool) (rootdir url : Str)
    (vcs : VcsType) (name : Str) (m : AssocMap) (opts : Options) :
    List CreateCall × Except AddError (PrintRec × AssocMap) :=
  match createNewPhabricatorCallsign name (dictValues m) with
  | .error .valueFail => ([], .error .allocValue)
  | .error .nameFail => ([], .error .allocName)
  | .ok cs =>
    let pr : PrintRec := ⟨name, url, cs, vcs, pathJoin3 rootdir (vcsStr vcs) name⟩
    if opts.dryRun then
      ([], .ok (pr, dinsert url cs m))
    else if accepts (mkCreateCall rootdir url name vcs cs) then
      ([mkCreateCall rootdir url name vcs cs], .ok (pr, dinsert url cs m))
    else ([mkCreateCall rootdir url name vcs cs], .error .api)

def addRepository (accepts : CreateCall → Bool) (rootdir : Str) (url : Str)
    (m : AssocMap) (opts : Options) :
    List CreateCall × Except AddError (PrintRec × AssocMap) :=
  match parseRepoUrl url with
  | none => ([], .error .unknownHost)
  | some (vcs, name) => addParsed accepts rootdir url vcs name m opts

/-- The add loop of `main` (lines 253-263), over the already-sorted list of
new clone-urls.  `except (phabricator.APIError, NameError)` catches exactly
`unknownHost`, `allocName` and `api`; those are recorded (the url paired
with `none`) and counted, and the loop continues.  The allocator's
`ValueError` is not caught and aborts the whole pass (the `.error` result).
Returns the failure count, the per-url events in processing order (with the
print record on success), the issued create calls, and the final map. -/
def processAdds (accepts : CreateCall → Bool) (rootdir : Str) (opts : Options) :
    List Str → AssocMap →
    Except Unit (Nat × List (Str × Option PrintRec) × List CreateCall × AssocMap)
  | [], m => .ok (0, [], [], m)
  | url :: rest, m =>
    match addRepository accepts rootdir url m opts with
    | (calls, .ok (pr, mNew)) =>
      match processAdds accepts rootdir opts rest mNew with
      | .ok (n, evs, cls, mf) => .ok (n, (url, some pr) :: evs, calls ++ cls, mf)
      | .error e => .error e
    | (_, .error .allocValue) => .error ()
    | (calls, .error _) =>
      match processAdds accepts rootdir opts rest m with
      | .ok (n, evs, cls, mf) => .ok (n + 1, (url, none) :: evs, calls ++ cls, mf)
      | .error e => .error e

/-- Everything observable about one pass of `main`. -/
structure PassOutput where
  numFailures : Nat
  addEvents : List (Str × Option PrintRec)
  creates : List CreateCall
  deleteReports : List (Str × Option Str)
  finalMap : AssocMap
deriving DecidableEq, Repr

/-- The reconciliation core of `_get_repos_to_add_and_delete`
(lines 142-159), taking the two inventory adapters' url sets and the
repository records `(remoteURI, callsign)` returned by the phabricator
query.  Lines 156-158: `actual_repos = kiln_repos | git_repos`,
`new_repos = actual_repos - phabricator_repos`,
`deleted_repos = phabricator_repos - actual_repos`. -/
def getReposToAddAndDelete (kilnRepos gitRepos : Finset Str)
    (phabInfo : List (Str × Str)) : Finset Str × Finset Str × AssocMap :=
  let phabricatorRepos := (phabInfo.map Prod.fst).toFinset
  let repoToCallsignMap := dictOfList phabInfo
  let actualRepos := kilnRepos ∪ gitRepos
  (actualRepos \ phabricatorRepos, phabricatorRepos \ actualRepos, repoToCallsignMap)

/-- The body of `main` after the repo lists are known: the add loop
followed by the delete-report loop (lines 268-270), both over sorted lists.
`delete_repository` (lines 214-220) only prints a recommendation, looking
the callsign up in `url_to_callsign_map`; each report is recorded as the
url paired with that lookup's result. -/
def runPassLists (accepts : CreateCall → Bool) (rootdir : Str) (opts : Options)
    (sortedNew sortedDeleted : List Str) (m0 : AssocMap) :
    Except Unit PassOutput :=
  match processAdds accepts rootdir opts sortedNew m0 with
  | .error e => .error e
  | .ok (n, evs, cls, mf) =>
    .ok ⟨n, evs, cls, sortedDeleted.map (fun u => (u, mf.lookup u)), mf⟩

/-- One pass of `main` (lines 240-275): reconcile, then process the new
repos in sorted order (line 256), then report the deleted repos in sorted
order (line 268).  The result is the per-repository failure count returned
on line 275 together with the observable events. -/
def runPass (accepts : CreateCall → Bool) (kilnRepos gitRepos : Finset Str)
    (phabInfo : List (Str × Str)) (rootdir : Str) (opts : Options) :
    Except Unit PassOutput :=
  runPassLists accepts rootdir opts
    ((getReposToAddAndDelete kilnRepos gitRepos phabInfo).1.sort (· ≤ ·))
    ((getReposToAddAndDelete kilnRepos gitRepos phabInfo).2.1.sort (· ≤ ·))
    (getReposToAddAndDelete kilnRepos gitRepos phabInfo).2.2

/-- Claim C1: the reconciliation computes exactly
`toAdd = actualURLs − trackedURLs` and `toDelete = trackedURLs − actualURLs`
(set difference), and both results are empty when the two input sets are
equal.  Here `actualURLs = kilnRepos ∪ gitRepos` and `trackedURLs` is the
set of remote uris of the phabricator query result. -/
theorem c1_reconcile (kilnRepos gitRepos : Finset Str)
    (phabInfo : List (Str × Str)) :
    (∀ u, u ∈ (getReposToAddAndDelete kilnRepos gitRepos phabInfo).1 ↔
      (u ∈ kilnRepos ∪ gitRepos ∧ u ∉ (phabInfo.map Prod.fst).toFinset)) ∧
    (∀ u, u ∈ (getReposToAddAndDelete kilnRepos gitRepos phabInfo).2.1 ↔
      (u ∈ (phabInfo.map Prod.fst).toFinset ∧ u ∉ kilnRepos ∪ gitRepos)) ∧
    (kilnRepos ∪ gitRepos = (phabInfo.map Prod.fst).toFinset →
      (getReposToAddAndDelete kilnRepos gitRepos phabInfo).1 = ∅ ∧
      (getReposToAddAndDelete kilnRepos gitRepos phabInfo).2.1 = ∅) := by
  refine ⟨fun u => ?_, fun u => ?_, fun h => ⟨?_, ?_⟩⟩
  · simp [getReposToAddAndDelete]
  · simp [getReposToAddAndDelete]
  · simp [getReposToAddAndDelete, h]
  · simp [getReposToAddAndDelete, h]

/-- Witness for C1 at a concrete equal pair of sets. -/
theorem c1_reconcile_witness :
    (getReposToAddAndDelete {"X".data} ∅ [("X".data, "C".data)]).1 = ∅ ∧
    (getReposToAddAndDelete {"X".data} ∅ [("X".data, "C".data)]).2.1 = ∅ :=
  (c1_reconcile {"X".data} ∅ [("X".data, "C".data)]).2.2 (by decide)

/-- Claim C5: the tracked-repositories query is attempted at most 3 times;
a `socket.timeout` triggers an immediate retry except on the final attempt,
where it propagates; any other exception propagates at once without a
retry; a successful query returns its value. -/
theorem c5_retry {α ε : Type} (out : Nat → QueryOutcome α ε) :
    (retryQuery out).2 ≤ 3
    ∧ (∀ a, out 0 = .ok a → retryQuery out = (.ok a, 1))
    ∧ (∀ e, out 0 = .failure e → retryQuery out = (.raisedFailure e, 1))
    ∧ (out 0 = .timeout → ∀ a, out 1 = .ok a → retryQuery out = (.ok a, 2))
    ∧ (out 0 = .timeout → ∀ e, out 1 = .failure e →
        retryQuery out = (.raisedFailure e, 2))
    ∧ (out 0 = .timeout → out 1 = .timeout → ∀ a, out 2 = .ok a →
        retryQuery out = (.ok a, 3))
    ∧ (out 0 = .timeout → out 1 = .timeout → ∀ e, out 2 = .failure e →
        retryQuery out = (.raisedFailure e, 3))
    ∧ (out 0 = .timeout → out 1 = .timeout → out 2 = .timeout →
        retryQuery out = (.raisedTimeout, 3)) := by
  rcases h0 : out 0 with a | _ | e
  all_goals rcases h1 : out 1 with b | _ | f
  all_goals rcases h2 : out 2 with c | _ | g
  all_goals simp [retryQuery, retryFrom, h0, h1, h2]

/-- Witness for C5: three timeouts in a row propagate the timeout after
exactly 3 attempts. -/
theorem c5_retry_witness :
    retryQuery (fun _ => (QueryOutcome.timeout : QueryOutcome Nat Nat)) =
      (.raisedTimeout, 3) :=
  (c5_retry _).2.2.2.2.2.2.2 rfl rfl rfl

/-- `re.split` never returns an empty list of pieces. -/
theorem splitNonUp_ne_nil (s : List Char) : splitNonUp s ≠ [] := by
  induction s using splitNonUp.induct with
  | case1 => simp [splitNonUp]
  | case2 c hc => simp [splitNonUp, hc]
  | case3 c hc => simp [splitNonUp, hc]
  | case4 c d s hc ih =>
    simp only [splitNonUp, if_pos hc]
    cases h : splitNonUp (d :: s) <;> simp [consHead]
  | case5 c d s hc hd ih => simp [splitNonUp, hc, hd]
  | case6 c d s hc hd ih => simp only [splitNonUp, if_neg hc, if_neg hd]; exact ih

/-- Every character of every piece of `splitNonUp s` is an uppercase
letter: the split separators are exactly the non-uppercase characters. -/
theorem mem_splitNonUp_isUp (s : List Char) (w : List Char)
    (hw : w ∈ splitNonUp s) (c : Char) (hc : c ∈ w) : isUpChar c = true := by
  induction s using splitNonUp.induct generalizing w with
  | case1 =>
    simp [splitNonUp] at hw
    subst hw; simp at hc
  | case2 a ha =>
    simp [splitNonUp, ha] at hw
    subst hw
    simp at hc
    subst hc; exact ha
  | case3 a ha =>
    simp [splitNonUp, ha] at hw
    subst hw; simp at hc
  | case4 a d s ha ih =>
    simp only [splitNonUp, if_pos ha] at hw
    rcases hr : splitNonUp (d :: s) with _ | ⟨w0, ws⟩
    · exact absurd hr (splitNonUp_ne_nil (d :: s))
    · rw [hr] at hw
      simp only [consHead] at hw
      rcases List.mem_cons.mp hw with h1 | h2
      · subst h1
        rcases List.mem_cons.mp hc with h3 | h4
        · subst h3; exact ha
        · exact ih w0 (by rw [hr]; exact List.mem_cons_self w0 ws) h4
      · exact ih w (by rw [hr]; exact List.mem_cons_of_mem w0 h2) hc
  | case5 a d s ha hd ih =>
    simp only [splitNonUp, if_neg ha, if_pos hd] at hw
    rcases List.mem_cons.mp hw with h1 | h2
    · subst h1; simp at hc
    · exact ih w h2 hc
  | case6 a d s ha hd ih =>
    simp only [splitNonUp, if_neg ha, if_neg hd] at hw
    exact ih w hw hc

/-- The first-hit characterization of the candidate loop, over any strictly
increasing list of prefix lengths. -/
theorem tryLens_ok_char (existing : List Str) (parts : List Str) :
    ∀ (L : List Nat), L.Pairwise (· < ·) → ∀ cs, tryLens existing parts L = .ok cs →
      ∃ n ∈ L, cs = candidateAt parts n ∧ cs ∉ existing ∧
        ∀ m ∈ L, m < n → candidateAt parts m ∈ existing := by
  intro L
  induction L with
  | nil => intro _ cs h; simp [tryLens] at h
  | cons n rest ih =>
    intro hpw cs h
    simp only [tryLens] at h
    by_cases hn : candidateAt parts n ∈ existing
    · rw [if_pos hn] at h
      obtain ⟨n', hn'L, hcs, hout, hbefore⟩ := ih (List.Pairwise.of_cons hpw) cs h
      refine ⟨n', List.mem_cons_of_mem n hn'L, hcs, hout, ?_⟩
      intro m hm hlt
      rcases List.mem_cons.mp hm with h1 | h2
      · subst h1; exact hn
      · exact hbefore m h2 hlt
    · rw [if_neg hn] at h
      injection h with h
      subst h
      refine ⟨n, List.mem_cons_self n rest, rfl, hn, ?_⟩
      intro m hm hlt
      rcases List.mem_cons.mp hm with h1 | h2
      · subst h1; exact absurd hlt (lt_irrefl _)
      · exact absurd hlt (not_lt.mpr (le_of_lt ((List.pairwise_cons.mp hpw).1 m h2)))

/-- The prefix lengths tried by the loop are exactly `1, ..., k`. -/
theorem mem_rangeSucc {k n : Nat} :
    n ∈ (List.range k).map (· + 1) ↔ 1 ≤ n ∧ n ≤ k := by
  simp only [List.mem_map, List.mem_range]
  constructor
  · rintro ⟨a, ha, rfl⟩; omega
  · intro h; exact ⟨n - 1, by omega, by omega⟩

/-- The list of tried prefix lengths is strictly increasing. -/
theorem pairwise_rangeSucc (k : Nat) :
    ((List.range k).map (· + 1)).Pairwise (· < ·) := by
  refine List.Pairwise.map _ (fun a b h => ?_) (List.pairwise_lt_range k)
  omega

/-- Claim C2: when allocation succeeds, the returned callsign is the
candidate for the least prefix length `n` between 1 and the length of the
longest remaining word whose candidate (the concatenation of the first `n`
characters of each word) is not among the used callsigns; in particular
the name `Mobile-Apps-Group-Android` with no used callsigns yields
`MAA`. -/
theorem c2_allocator_order (name : Str) (used : List Str) (cs : Str)
    (h : createNewPhabricatorCallsign name used = .ok cs) :
    (∃ n, 1 ≤ n ∧ n ≤ maxWordLen (filteredParts name) ∧
        cs = candidateAt (filteredParts name) n ∧ cs ∉ used ∧
        ∀ m, 1 ≤ m → m < n → candidateAt (filteredParts name) m ∈ used) ∧
    createNewPhabricatorCallsign "Mobile-Apps-Group-Android".data [] =
      .ok "MAA".data := by
  refine ⟨?_, rfl⟩
  rcases hp : filteredParts name with _ | ⟨p, ps⟩
  · unfold createNewPhabricatorCallsign at h
    rw [hp] at h
    exact absurd h (by simp)
  · unfold createNewPhabricatorCallsign at h
    rw [hp] at h
    obtain ⟨n, hnL, hcs, hnotin, hbef⟩ :=
      tryLens_ok_char used (p :: ps) _ (pairwise_rangeSucc _) cs h
    obtain ⟨hn1, hnk⟩ := mem_rangeSucc.mp hnL
    refine ⟨n, hn1, hnk, hcs, hnotin, fun m hm1 hmn => ?_⟩
    exact hbef m (mem_rangeSucc.mpr ⟨hm1, by omega⟩) hmn

/-- Witness for C2 at the concrete example of the spec. -/
theorem c2_allocator_order_witness :
    ∃ n, 1 ≤ n ∧ n ≤ maxWordLen (filteredParts "Mobile-Apps-Group-Android".data) ∧
      "MAA".data = candidateAt (filteredParts "Mobile-Apps-Group-Android".data) n ∧
      "MAA".data ∉ ([] : List Str) ∧
      ∀ m, 1 ≤ m → m < n →
        candidateAt (filteredParts "Mobile-Apps-Group-Android".data) m ∈ ([] : List Str) :=
  (c2_allocator_order "Mobile-Apps-Group-Android".data [] "MAA".data rfl).1

/-- If the recorded maximal word length is positive, some word is
nonempty. -/
theorem maxWordLen_pos_exists (parts : List Str) (h : 0 < maxWordLen parts) :
    ∃ w ∈ parts, 0 < w.length := by
  induction parts with
  | nil => simp [maxWordLen] at h
  | cons p ps ih =>
    rcases lt_max_iff.mp h with h1 | h2
    · exact ⟨p, List.mem_cons_self p ps, h1⟩
    · obtain ⟨w, hw, hwpos⟩ := ih h2
      exact ⟨w, List.mem_cons_of_mem p hw, hwpos⟩

/-- A candidate for a positive prefix length is nonempty as soon as some
word is. -/
theorem candidateAt_ne_nil (parts : List Str) (n : Nat) (hn : 1 ≤ n)
    (w : Str) (hw : w ∈ parts) (hwlen : 0 < w.length) :
    candidateAt parts n ≠ [] := by
  intro hcontra
  have htake : w.take n = [] := by
    have hall := List.flatten_eq_nil_iff.mp hcontra
    exact hall (w.take n) (List.mem_map_of_mem _ hw)
  have : (w.take n).length = 0 := by rw [htake]; rfl
  rw [List.length_take] at this
  omega

/-- All characters of all candidates built from a name are uppercase
letters: the normalized words contain only `A`-`Z`. -/
theorem candidateAt_chars_up (repoName : Str) (n : Nat) (c : Char)
    (hc : c ∈ candidateAt (filteredParts repoName) n) : isUpChar c = true := by
  simp only [candidateAt, List.mem_flatten, List.mem_map] at hc
  obtain ⟨piece, ⟨w, hw, rfl⟩, hcp⟩ := hc
  have hcw : c ∈ w := List.take_subset n w hcp
  have hw1 : w ∈ nameParts repoName :=
    List.erase_subset _ _ (List.erase_subset _ _ hw)
  exact mem_splitNonUp_isUp (normalizeName repoName) w hw1 c hcw

/-- The boolean uppercase test in propositional form. -/
theorem isUpChar_iff {c : Char} : isUpChar c = true ↔ ('A' ≤ c ∧ c ≤ 'Z') := by
  simp [isUpChar]

/-- Claim C3: a returned callsign is never among the used callsigns, and
is a nonempty string of uppercase letters only. -/
theorem c3_allocator_legal (name : Str) (used : List Str) (cs : Str)
    (h : createNewPhabricatorCallsign name used = .ok cs) :
    cs ∉ used ∧ cs ≠ [] ∧ ∀ c ∈ cs, 'A' ≤ c ∧ c ≤ 'Z' := by
  rcases hp : filteredParts name with _ | ⟨p, ps⟩
  · unfold createNewPhabricatorCallsign at h
    rw [hp] at h
    exact absurd h (by simp)
  · unfold createNewPhabricatorCallsign at h
    rw [hp] at h
    obtain ⟨n, hnL, hcs, hnotin, _⟩ :=
      tryLens_ok_char used (p :: ps) _ (pairwise_rangeSucc _) cs h
    obtain ⟨hn1, hnk⟩ := mem_rangeSucc.mp hnL
    have hpos : 0 < maxWordLen (p :: ps) := lt_of_lt_of_le hn1 hnk
    obtain ⟨w, hw, hwpos⟩ := maxWordLen_pos_exists _ hpos
    refine ⟨hnotin, ?_, ?_⟩
    · rw [hcs]
      exact candidateAt_ne_nil (p :: ps) n hn1 w hw hwpos
    · intro c hc
      rw [hcs] at hc
      rw [← hp] at hc
      exact isUpChar_iff.mp (candidateAt_chars_up name n c hc)

/-- Witness for C3 at the concrete example of the spec. -/
theorem c3_allocator_legal_witness :
    "MAA".data ∉ ([] : List Str) ∧ "MAA".data ≠ [] ∧
      ∀ c ∈ "MAA".data, 'A' ≤ c ∧ c ≤ 'Z' :=
  c3_allocator_legal "Mobile-Apps-Group-Android".data [] "MAA".data rfl

/-- Claim C9 counterexample: for the name `Group-Group-Android` a `GROUP`
token survives the noise-word removal (Python's `list.remove` deletes only
the first occurrence), and the returned callsign `GA` takes its first
character from that surviving `GROUP` word. -/
theorem c9_noise_cex :
    groupWord ∈ filteredParts "Group-Group-Android".data ∧
    createNewPhabricatorCallsign "Group-Group-Android".data [] =
      .ok "GA".data :=
  ⟨by decide, rfl⟩

/-- Claim C9 amended: exactly the first occurrence of `GROUP` and the
first occurrence of `WEBSITE` are removed from the word list; in
particular, when each of these noise words occurs at most once, none
remains among the words used to build candidates. -/
theorem c9_noise_amended (name : Str) :
    (filteredParts name).count groupWord = (nameParts name).count groupWord - 1 ∧
    (filteredParts name).count websiteWord = (nameParts name).count websiteWord - 1 ∧
    ((nameParts name).count groupWord ≤ 1 → groupWord ∉ filteredParts name) ∧
    ((nameParts name).count websiteWord ≤ 1 → websiteWord ∉ filteredParts name) := by
  have hne : groupWord ≠ websiteWord := by decide
  have h1 : (filteredParts name).count groupWord =
      (nameParts name).count groupWord - 1 := by
    rw [filteredParts, List.count_erase_of_ne hne, List.count_erase_self]
  have h2 : (filteredParts name).count websiteWord =
      (nameParts name).count websiteWord - 1 := by
    rw [filteredParts, List.count_erase_self, List.count_erase_of_ne hne.symm]
  refine ⟨h1, h2, fun hle => ?_, fun hle => ?_⟩
  · have : (filteredParts name).count groupWord = 0 := by omega
    exact List.count_eq_zero.mp this
  · have : (filteredParts name).count websiteWord = 0 := by omega
    exact List.count_eq_zero.mp this

/-- Witness for the amended C9: in `Mobile-Apps-Group-Android` each noise
word occurs at most once, so none survives the removal. -/
theorem c9_noise_amended_witness :
    groupWord ∉ filteredParts "Mobile-Apps-Group-Android".data ∧
    websiteWord ∉ filteredParts "Mobile-Apps-Group-Android".data :=
  ⟨(c9_noise_amended "Mobile-Apps-Group-Android".data).2.2.1 (by decide),
   (c9_noise_amended "Mobile-Apps-Group-Android".data).2.2.2 (by decide)⟩

/-- The add loop processes every url of its input, in order, and the
failure count is exactly the number of urls whose add was recorded as a
failure. -/
theorem processAdds_ok_spec (accepts : CreateCall → Bool) (rootdir : Str)
    (opts : Options) :
    ∀ (l : List Str) (m : AssocMap) (n : Nat)
      (evs : List (Str × Option PrintRec)) (cls : List CreateCall)
      (mf : AssocMap),
      processAdds accepts rootdir opts l m = .ok (n, evs, cls, mf) →
      evs.map Prod.fst = l ∧
        n = (evs.filter (fun e => e.2.isNone)).length := by
  intro l
  induction l with
  | nil =>
    intro m n evs cls mf h
    simp only [processAdds] at h
    obtain ⟨h1, h2, h3, h4⟩ := by simpa using h
    subst h1; subst h2
    simp
  | cons url rest ih =>
    intro m n evs cls mf h
    simp only [processAdds] at h
    split at h
    · rename_i calls pr mNew heq
      split at h
      · rename_i n' evs' cls' mf' heq2
        obtain ⟨h1, h2, h3, h4⟩ := by simpa using h
        subst h1; subst h2
        obtain ⟨hmap, hcount⟩ := ih mNew n' evs' cls' mf' heq2
        constructor
        · simp [hmap]
        · simp [hcount]
      · simp at h
    · simp at h
    · rename_i calls e hne heq
      split at h
      · rename_i n' evs' cls' mf' heq2
        obtain ⟨h1, h2, h3, h4⟩ := by simpa using h
        subst h1; subst h2
        obtain ⟨hmap, hcount⟩ := ih m n' evs' cls' mf' heq2
        constructor
        · simp [hmap]
        · simp [hcount]
      · simp at h

/-- Looking up the key just bound at the head of an association list. -/
theorem lookup_cons_self {k v : Str} {t : AssocMap} :
    ((k, v) :: t).lookup k = some v := by
  simp [List.lookup]

/-- Looking up a different key skips the head binding. -/
theorem lookup_cons_ne {k q v : Str} {t : AssocMap} (h : ¬ q = k) :
    ((k, v) :: t).lookup q = t.lookup q := by
  simp [List.lookup, beq_eq_false_iff_ne.mpr h]

/-- Looking a key up after a dict assignment: the assigned key maps to the
new value and every other key is unaffected. -/
theorem lookup_dinsert (k v q : Str) (m : AssocMap) :
    (dinsert k v m).lookup q = if q = k then some v else m.lookup q := by
  induction m with
  | nil =>
    by_cases hqk : q = k
    · subst hqk; simp [dinsert, lookup_cons_self]
    · simp [dinsert, lookup_cons_ne hqk, hqk]
  | cons p t ih =>
    rcases p with ⟨pk, pv⟩
    by_cases hpk : pk = k
    · subst hpk
      by_cases hqk : q = pk
      · subst hqk
        simp [dinsert, lookup_cons_self]
      · simp [dinsert, lookup_cons_ne hqk, hqk]
    · by_cases hqp : q = pk
      · subst hqp
        have hqk : ¬ q = k := fun hh => hpk (hh ▸ rfl)
        simp [dinsert, hpk, lookup_cons_self, hqk]
      · by_cases hqk : q = k
        · subst hqk
          simp [dinsert, hpk, lookup_cons_ne hqp, ih]
        · simp [dinsert, hpk, lookup_cons_ne hqp, hqk, ih]

/-- Lookup of any key of the input list succeeds in the dict built from
it, and lookup of keys already present in the accumulator keeps
succeeding. -/
theorem lookup_foldl_dinsert_isSome (l : List (Str × Str)) :
    ∀ (m0 : AssocMap) (q : Str),
      (q ∈ l.map Prod.fst ∨ (m0.lookup q).isSome = true) →
      ((l.foldl (fun m p => dinsert p.1 p.2 m) m0).lookup q).isSome = true := by
  induction l with
  | nil =>
    intro m0 q h
    rcases h with h | h
    · simp at h
    · simpa using h
  | cons p t ih =>
    intro m0 q h
    simp only [List.foldl_cons]
    apply ih
    by_cases hq : q = p.1
    · right
      rw [lookup_dinsert, if_pos hq]
      rfl
    · rcases h with h | h
      · rw [List.map_cons] at h
        rcases List.mem_cons.mp h with h1 | h1
        · exact absurd h1 hq
        · exact Or.inl h1
      · right
        rwa [lookup_dinsert, if_neg hq]

/-- Lookup of a url of the phabricator query result succeeds in
`url_to_callsign_map`. -/
theorem lookup_dictOfList_isSome (l : List (Str × Str)) (q : Str)
    (h : q ∈ l.map Prod.fst) : ((dictOfList l).lookup q).isSome = true :=
  lookup_foldl_dinsert_isSome l [] q (Or.inl h)

/-- `addParsed` either raises, or returns having assigned some callsign to
exactly the processed url in the map. -/
theorem addParsed_cases (accepts : CreateCall → Bool) (rootdir url : Str)
    (vcs : VcsType) (name : Str) (m : AssocMap) (opts : Options) :
    (∃ calls e, addParsed accepts rootdir url vcs name m opts =
        (calls, .error e)) ∨
    (∃ calls cs pr, addParsed accepts rootdir url vcs name m opts =
        (calls, .ok (pr, dinsert url cs m))) := by
  unfold addParsed
  rcases hc : createNewPhabricatorCallsign name (dictValues m) with e | cs
  · rcases e with _ | _
    · exact Or.inl ⟨[], .allocName, rfl⟩
    · exact Or.inl ⟨[], .allocValue, rfl⟩
  · by_cases hd : opts.dryRun
    · refine Or.inr ⟨[], cs,
        ⟨name, url, cs, vcs, pathJoin3 rootdir (vcsStr vcs) name⟩, ?_⟩
      simp [hd]
    · by_cases ha : accepts (mkCreateCall rootdir url name vcs cs)
      · refine Or.inr ⟨[mkCreateCall rootdir url name vcs cs], cs,
          ⟨name, url, cs, vcs, pathJoin3 rootdir (vcsStr vcs) name⟩, ?_⟩
        simp [hd, ha]
      · refine Or.inl ⟨[mkCreateCall rootdir url name vcs cs], .api, ?_⟩
        simp [hd, ha]

/-- `add_repository` either raises, or returns having assigned some
callsign to exactly the processed url in the map. -/
theorem addRepository_cases (accepts : CreateCall → Bool) (rootdir url : Str)
    (m : AssocMap) (opts : Options) :
    (∃ calls e, addRepository accepts rootdir url m opts =
        (calls, .error e)) ∨
    (∃ calls cs pr, addRepository accepts rootdir url m opts =
        (calls, .ok (pr, dinsert url cs m))) := by
  unfold addRepository
  rcases hp : parseRepoUrl url with _ | ⟨vcs, name⟩
  · exact Or.inl ⟨[], .unknownHost, rfl⟩
  · exact addParsed_cases accepts rootdir url vcs name m opts

/-- The add loop never removes map entries: a key whose lookup succeeds
before the loop still succeeds after it. -/
theorem processAdds_lookup_mono (accepts : CreateCall → Bool) (rootdir : Str)
    (opts : Options) :
    ∀ (l : List Str) (m : AssocMap) (n : Nat)
      (evs : List (Str × Option PrintRec)) (cls : List CreateCall)
      (mf : AssocMap),
      processAdds accepts rootdir opts l m = .ok (n, evs, cls, mf) →
      ∀ q, (m.lookup q).isSome = true → (mf.lookup q).isSome = true := by
  intro l
  induction l with
  | nil =>
    intro m n evs cls mf h q hq
    simp only [processAdds] at h
    obtain ⟨h1, h2, h3, h4⟩ := by simpa using h
    rwa [← h4]
  | cons url rest ih =>
    intro m n evs cls mf h q hq
    simp only [processAdds] at h
    split at h
    · rename_i calls pr mNew heq
      split at h
      · rename_i n' evs' cls' mf' heq2
        obtain ⟨h1, h2, h3, h4⟩ := by simpa using h
        subst h4
        refine ih mNew n' evs' cls' mf' heq2 q ?_
        rcases addRepository_cases accepts rootdir url m opts with
          ⟨calls2, e, hcontra⟩ | ⟨calls2, cs, pr2, hok⟩
        · rw [heq] at hcontra
          simp at hcontra
        · rw [heq] at hok
          obtain ⟨hc1, hc2, hc3⟩ := by simpa using hok
          rw [hc3, lookup_dinsert]
          by_cases hqu : q = url <;> simp [hqu, hq]
      · simp at h
    · simp at h
    · rename_i calls e hne heq
      split at h
      · rename_i n' evs' cls' mf' heq2
        obtain ⟨h1, h2, h3, h4⟩ := by simpa using h
        subst h4
        exact ih m n' evs' cls' mf' heq2 q hq
      · simp at h

/-- Sorting a two-element url set in the order given by the comparison. -/
theorem sort_pair {a b : Str} (h : a < b) :
    Finset.sort (· ≤ ·) ({a, b} : Finset Str) = [a, b] := by
  rw [Finset.sort_insert]
  · rw [Finset.sort_singleton]
  · intro c hc
    simp at hc
    subst hc
    exact le_of_lt h
  · simp
    exact ne_of_lt h

/-- A pass whose reconciliation yields one single new url. -/
theorem runPass_oneAdd (accepts : CreateCall → Bool) (url rootdir : Str)
    (opts : Options) :
    runPass accepts ∅ {url} [] rootdir opts =
      runPassLists accepts rootdir opts [url] [] [] := by
  have h1 : getReposToAddAndDelete ∅ {url} [] = ({url}, ∅, []) := by
    unfold getReposToAddAndDelete
    simp [dictOfList]
  simp only [runPass, h1]
  rw [Finset.sort_singleton, Finset.sort_empty]

/-- A pass whose reconciliation yields two new urls, in sorted order. -/
theorem runPass_twoAdds (accepts : CreateCall → Bool) (u1 u2 rootdir : Str)
    (opts : Options) (h : u1 < u2) :
    runPass accepts ∅ {u1, u2} [] rootdir opts =
      runPassLists accepts rootdir opts [u1, u2] [] [] := by
  have h1 : getReposToAddAndDelete ∅ {u1, u2} [] = ({u1, u2}, ∅, []) := by
    unfold getReposToAddAndDelete
    simp [dictOfList]
  simp only [runPass, h1]
  rw [sort_pair h, Finset.sort_empty]

/-- A pass whose reconciliation yields one single deleted url. -/
theorem runPass_oneDelete (accepts : CreateCall → Bool) (u c rootdir : Str)
    (opts : Options) :
    runPass accepts ∅ ∅ [(u, c)] rootdir opts =
      runPassLists accepts rootdir opts [] [u] [(u, c)] := by
  have h1 : getReposToAddAndDelete ∅ ∅ [(u, c)] = (∅, {u}, [(u, c)]) := by
    unfold getReposToAddAndDelete
    simp [dictOfList, dinsert]
  simp only [runPass, h1]
  rw [Finset.sort_empty, Finset.sort_singleton]

/-- A completed pass processed exactly the sorted list of new urls, and
its failure count is the number of failure events. -/
theorem runPass_events_eq_sort (accepts : CreateCall → Bool)
    (kilnRepos gitRepos : Finset Str) (phabInfo : List (Str × Str))
    (rootdir : Str) (opts : Options) (out : PassOutput)
    (h : runPass accepts kilnRepos gitRepos phabInfo rootdir opts = .ok out) :
    out.addEvents.map Prod.fst =
      ((kilnRepos ∪ gitRepos) \ (phabInfo.map Prod.fst).toFinset).sort (· ≤ ·) ∧
    out.numFailures = (out.addEvents.filter (fun e => e.2.isNone)).length := by
  unfold runPass runPassLists at h
  split at h
  · simp at h
  · rename_i n evs cls mf heq
    obtain rfl := (Except.ok.inj h)
    obtain ⟨hmap, hcount⟩ := processAdds_ok_spec accepts rootdir opts _ _ _ _ _ _ heq
    refine ⟨?_, hcount⟩
    rw [hmap]
    rfl

/-- Claim C4: a per-repository failure (unknown host, allocation
`NameError`, create rejection) does not stop the pass: every url of
`toAdd` (sorted) produces exactly one event, and the returned value is
exactly the number of failing repositories. -/
theorem c4_pass_failures (accepts : CreateCall → Bool)
    (kilnRepos gitRepos : Finset Str) (phabInfo : List (Str × Str))
    (rootdir : Str) (opts : Options) (out : PassOutput)
    (h : runPass accepts kilnRepos gitRepos phabInfo rootdir opts = .ok out) :
    out.addEvents.map Prod.fst =
      ((kilnRepos ∪ gitRepos) \ (phabInfo.map Prod.fst).toFinset).sort (· ≤ ·) ∧
    out.numFailures = (out.addEvents.filter (fun e => e.2.isNone)).length :=
  runPass_events_eq_sort accepts kilnRepos gitRepos phabInfo rootdir opts out h

/-- The url of a github repository used in the concrete witnesses. -/
def calcUrl : Str := "https://github.com/Khan/calculus".data

/-- The observable outcome of a pass adding `calcUrl` alone. -/
def passOutCalc : PassOutput :=
  ⟨0,
   [(calcUrl, some ⟨"calculus".data, calcUrl, "C".data, .git,
      "root/git/calculus".data⟩)],
   [⟨"calculus".data, .git, "C".data, calcUrl, true, 60,
      "root/git/calculus".data⟩],
   [],
   [(calcUrl, "C".data)]⟩

/-- Witness for C4 on a concrete pass with one new repository. -/
theorem c4_pass_failures_witness :
    passOutCalc.addEvents.map Prod.fst =
      ((∅ ∪ {calcUrl} : Finset Str) \
        (([] : List (Str × Str)).map Prod.fst).toFinset).sort (· ≤ ·) ∧
    passOutCalc.numFailures =
      (passOutCalc.addEvents.filter (fun e => e.2.isNone)).length :=
  c4_pass_failures (fun _ => true) ∅ {calcUrl} [] "root".data ⟨false, false⟩
    passOutCalc (by rw [runPass_oneAdd]; rfl)

/-- First of two colliding-callsign github urls. -/
def alphaUrl : Str := "https://github.com/Khan/alpha".data

/-- Second of two colliding-callsign github urls; both names yield the
one-letter candidate `A`. -/
def alphabetUrl : Str := "https://github.com/Khan/alphabet".data

/-- Claim C6: the add loop processes `toAdd` in lexicographically sorted
order of clone-url; concretely, of the two colliding names `alpha` and
`alphabet`, the url that sorts first is processed first and receives the
shorter callsign `A`, the second escalating to `AL`. -/
theorem c6_sorted_order (accepts : CreateCall → Bool)
    (kilnRepos gitRepos : Finset Str) (phabInfo : List (Str × Str))
    (rootdir : Str) (opts : Options) (out : PassOutput)
    (h : runPass accepts kilnRepos gitRepos phabInfo rootdir opts = .ok out) :
    List.Sorted (· ≤ ·) (out.addEvents.map Prod.fst) ∧
    (runPass (fun _ => true) ∅ {alphaUrl, alphabetUrl} [] "root".data
        ⟨false, false⟩).toOption.map
        (fun o => o.addEvents.map (fun e => (e.1, e.2.map PrintRec.callsign))) =
      some [(alphaUrl, some "A".data), (alphabetUrl, some "AL".data)] := by
  constructor
  · rw [(runPass_events_eq_sort accepts kilnRepos gitRepos phabInfo rootdir
      opts out h).1]
    exact Finset.sort_sorted _ _
  · rw [runPass_twoAdds (fun _ => true) alphaUrl alphabetUrl "root".data
      ⟨false, false⟩ (by decide)]
    rfl

/-- Witness for C6 on a concrete pass with one new repository. -/
theorem c6_sorted_order_witness :
    List.Sorted (· ≤ ·) (passOutCalc.addEvents.map Prod.fst) ∧
    (runPass (fun _ => true) ∅ {alphaUrl, alphabetUrl} [] "root".data
        ⟨false, false⟩).toOption.map
        (fun o => o.addEvents.map (fun e => (e.1, e.2.map PrintRec.callsign))) =
      some [(alphaUrl, some "A".data), (alphabetUrl, some "AL".data)] :=
  c6_sorted_order (fun _ => true) ∅ {calcUrl} [] "root".data ⟨false, false⟩
    passOutCalc (by rw [runPass_oneAdd]; rfl)

/-- Step equation of the add loop: successful add. -/
theorem processAdds_cons_ok (accepts : CreateCall → Bool) (rootdir : Str)
    (opts : Options) (url : Str) (rest : List Str) (m : AssocMap)
    (calls : List CreateCall) (pr : PrintRec) (mNew : AssocMap)
    (h : addRepository accepts rootdir url m opts = (calls, .ok (pr, mNew))) :
    processAdds accepts rootdir opts (url :: rest) m =
      match processAdds accepts rootdir opts rest mNew with
      | .ok (n, evs, cls, mf) => .ok (n, (url, some pr) :: evs, calls ++ cls, mf)
      | .error e => .error e := by
  simp only [processAdds, h]

/-- Step equation of the add loop: caught per-repository failure. -/
theorem processAdds_cons_caught (accepts : CreateCall → Bool) (rootdir : Str)
    (opts : Options) (url : Str) (rest : List Str) (m : AssocMap)
    (calls : List CreateCall) (e : AddError) (hne : e ≠ AddError.allocValue)
    (h : addRepository accepts rootdir url m opts = (calls, .error e)) :
    processAdds accepts rootdir opts (url :: rest) m =
      match processAdds accepts rootdir opts rest m with
      | .ok (n, evs, cls, mf) => .ok (n + 1, (url, none) :: evs, calls ++ cls, mf)
      | .error e2 => .error e2 := by
  rcases e with _ | _ | _ | _
  · simp only [processAdds, h]
  · simp only [processAdds, h]
  · exact absurd rfl hne
  · simp only [processAdds, h]

/-- Step equation of the add loop: the uncaught `ValueError`. -/
theorem processAdds_cons_value (accepts : CreateCall → Bool) (rootdir : Str)
    (opts : Options) (url : Str) (rest : List Str) (m : AssocMap)
    (calls : List CreateCall)
    (h : addRepository accepts rootdir url m opts = (calls, .error .allocValue)) :
    processAdds accepts rootdir opts (url :: rest) m = .error () := by
  simp only [processAdds, h]

/-- With `--dry_run`, the part of `add_repository` after the url prefix
matched issues no create call, and otherwise behaves exactly like a run
against a registry that accepts every create. -/
theorem addParsed_dry (accepts : CreateCall → Bool) (rootdir url : Str)
    (vcs : VcsType) (name : Str) (m : AssocMap) (vb vb2 : Bool) :
    (addParsed accepts rootdir url vcs name m ⟨vb, true⟩).1 = [] ∧
    (addParsed accepts rootdir url vcs name m ⟨vb, true⟩).2 =
      (addParsed (fun _ => true) rootdir url vcs name m ⟨vb2, false⟩).2 := by
  unfold addParsed
  rcases hc : createNewPhabricatorCallsign name (dictValues m) with e | cs
  · rcases e with _ | _ <;> exact ⟨rfl, rfl⟩
  · simp

/-- With `--dry_run`, `add_repository` issues no create call and otherwise
behaves exactly like a run against a registry that accepts every create. -/
theorem addRepository_dry (accepts : CreateCall → Bool) (rootdir url : Str)
    (m : AssocMap) (vb vb2 : Bool) :
    (addRepository accepts rootdir url m ⟨vb, true⟩).1 = [] ∧
    (addRepository accepts rootdir url m ⟨vb, true⟩).2 =
      (addRepository (fun _ => true) rootdir url m ⟨vb2, false⟩).2 := by
  unfold addRepository
  rcases hp : parseRepoUrl url with _ | ⟨vcs, name⟩
  · exact ⟨rfl, rfl⟩
  · exact addParsed_dry accepts rootdir url vcs name m vb vb2

/-- The dry-run add loop equals the accept-all add loop with the issued
create calls removed. -/
theorem processAdds_dry (accepts : CreateCall → Bool) (rootdir : Str)
    (vb vb2 : Bool) :
    ∀ (l : List Str) (m : AssocMap),
      processAdds accepts rootdir ⟨vb, true⟩ l m =
        (processAdds (fun _ => true) rootdir ⟨vb2, false⟩ l m).map
          (fun r => (r.1, r.2.1, ([] : List CreateCall), r.2.2.2)) := by
  intro l
  induction l with
  | nil => intro m; rfl
  | cons url rest ih =>
    intro m
    obtain ⟨hfst, hsnd⟩ := addRepository_dry accepts rootdir url m vb vb2
    rcases ha : addRepository (fun _ => true) rootdir url m ⟨vb2, false⟩ with
      ⟨callsN, rN⟩
    have hdry : addRepository accepts rootdir url m ⟨vb, true⟩ = ([], rN) := by
      rw [ha] at hsnd
      rcases haa : addRepository accepts rootdir url m ⟨vb, true⟩ with ⟨c2, r2⟩
      rw [haa] at hfst hsnd
      simp at hfst hsnd
      rw [hfst, hsnd]
    rcases rN with e | ⟨pr, mNew⟩
    · by_cases hv : e = AddError.allocValue
      · subst hv
        rw [processAdds_cons_value _ _ _ _ _ _ _ hdry,
            processAdds_cons_value _ _ _ _ _ _ _ ha]
        rfl
      · rw [processAdds_cons_caught _ _ _ _ _ _ _ _ hv hdry,
            processAdds_cons_caught _ _ _ _ _ _ _ _ hv ha, ih m]
        rcases processAdds (fun _ => true) rootdir ⟨vb2, false⟩ rest m with
          e2 | ⟨n, evs, cls, mf⟩ <;> rfl
    · rw [processAdds_cons_ok _ _ _ _ _ _ _ _ _ hdry,
          processAdds_cons_ok _ _ _ _ _ _ _ _ _ ha, ih mNew]
      rcases processAdds (fun _ => true) rootdir ⟨vb2, false⟩ rest mNew with
        e2 | ⟨n, evs, cls, mf⟩ <;> rfl

/-- Claim C7: a dry-run pass issues zero create calls to the registry,
while deriving the same names and callsigns, recording the same events and
reports, and building the same final map as a normal pass against a
registry that accepts every create. -/
theorem c7_dry_run (accepts : CreateCall → Bool)
    (kilnRepos gitRepos : Finset Str) (phabInfo : List (Str × Str))
    (rootdir : Str) (vb vb2 : Bool) (out : PassOutput)
    (h : runPass accepts kilnRepos gitRepos phabInfo rootdir ⟨vb, true⟩ =
      .ok out) :
    out.creates = [] ∧
    ∃ outN, runPass (fun _ => true) kilnRepos gitRepos phabInfo rootdir
        ⟨vb2, false⟩ = .ok outN ∧
      outN.addEvents = out.addEvents ∧
      outN.numFailures = out.numFailures ∧
      outN.deleteReports = out.deleteReports ∧
      outN.finalMap = out.finalMap := by
  unfold runPass runPassLists at h ⊢
  rw [processAdds_dry accepts rootdir vb vb2] at h
  rcases hrec : processAdds (fun _ => true) rootdir ⟨vb2, false⟩
      ((getReposToAddAndDelete kilnRepos gitRepos phabInfo).1.sort (· ≤ ·))
      (getReposToAddAndDelete kilnRepos gitRepos phabInfo).2.2 with
    e | ⟨n, evs, cls, mf⟩
  · rw [hrec] at h
    simp [Except.map] at h
  · rw [hrec] at h
    simp only [Except.map] at h
    obtain rfl := (Except.ok.inj h)
    refine ⟨rfl, ⟨n, evs, cls, _, mf⟩, ?_, rfl, rfl, rfl, rfl⟩
    rfl

/-- The observable outcome of a dry-run pass adding `calcUrl` alone. -/
def passOutCalcDry : PassOutput :=
  ⟨0,
   [(calcUrl, some ⟨"calculus".data, calcUrl, "C".data, .git,
      "root/git/calculus".data⟩)],
   [],
   [],
   [(calcUrl, "C".data)]⟩

/-- Witness for C7 on a concrete dry-run pass with one new repository. -/
theorem c7_dry_run_witness :
    passOutCalcDry.creates = [] ∧
    ∃ outN, runPass (fun _ => true) ∅ {calcUrl} [] "root".data
        ⟨false, false⟩ = .ok outN ∧
      outN.addEvents = passOutCalcDry.addEvents ∧
      outN.numFailures = passOutCalcDry.numFailures ∧
      outN.deleteReports = passOutCalcDry.deleteReports ∧
      outN.finalMap = passOutCalcDry.finalMap :=
  c7_dry_run (fun _ => true) ∅ {calcUrl} [] "root".data true false
    passOutCalcDry (by rw [runPass_oneAdd]; rfl)

/-- Claim C10: every url reported by the delete loop resolves in
`url_to_callsign_map`: the lookup of line 220 always succeeds. -/
theorem c10_delete_lookup (accepts : CreateCall → Bool)
    (kilnRepos gitRepos : Finset Str) (phabInfo : List (Str × Str))
    (rootdir : Str) (opts : Options) (out : PassOutput)
    (h : runPass accepts kilnRepos gitRepos phabInfo rootdir opts = .ok out) :
    ∀ p ∈ out.deleteReports, p.2.isSome = true := by
  unfold runPass runPassLists at h
  split at h
  · simp at h
  · rename_i n evs cls mf heq
    obtain rfl := (Except.ok.inj h)
    intro p hp
    simp only [List.mem_map] at hp
    obtain ⟨u, hu, rfl⟩ := hp
    have hu2 := (Finset.mem_sort (α := Str) (· ≤ ·)).mp hu
    have hu3 : u ∈ (phabInfo.map Prod.fst).toFinset := by
      have hdef : (getReposToAddAndDelete kilnRepos gitRepos phabInfo).2.1 =
          (phabInfo.map Prod.fst).toFinset \ (kilnRepos ∪ gitRepos) := rfl
      rw [hdef] at hu2
      exact (Finset.mem_sdiff.mp hu2).1
    have hu4 : u ∈ phabInfo.map Prod.fst := List.mem_toFinset.mp hu3
    have h0 : (((getReposToAddAndDelete kilnRepos gitRepos
        phabInfo).2.2).lookup u).isSome = true := by
      have hdef2 : (getReposToAddAndDelete kilnRepos gitRepos phabInfo).2.2 =
          dictOfList phabInfo := rfl
      rw [hdef2]
      exact lookup_dictOfList_isSome phabInfo u hu4
    exact processAdds_lookup_mono accepts rootdir opts _ _ _ _ _ _ heq u h0

/-- The url of a no-longer-existing repository used in the C10 witness. -/
def delUrl : Str := "https://github.com/Khan/olddead".data

/-- Witness for C10 on a concrete pass with one deleted repository. -/
theorem c10_delete_lookup_witness :
    ((delUrl, some "D".data) : Str × Option Str).2.isSome = true :=
  c10_delete_lookup (fun _ => true) ∅ ∅ [(delUrl, "D".data)] "root".data
    ⟨false, false⟩ ⟨0, [], [], [(delUrl, some "D".data)], [(delUrl, "D".data)]⟩
    (by rw [runPass_oneDelete]; rfl) (delUrl, some "D".data) (by decide)

/-- The url of a github repository named `Group` (noise word only). -/
def groupUrl : Str := "https://github.com/Khan/Group".data

/-- The url of a github repository named `123` (digits only). -/
def digitsUrl : Str := "https://github.com/Khan/123".data

/-- Claim C8, as the code actually behaves: a name normalizing to all-empty
words (such as `123`) raises the allocator's `NameError`, which the pass
catches and records; but a name whose words are all noise words (such as
`Group`) raises a `ValueError` from `max()` over an empty sequence, which
`except (phabricator.APIError, NameError)` does not catch, so the whole
pass aborts instead of recording a per-repository failure. -/
theorem c8_noise_word_crash :
    createNewPhabricatorCallsign "Group".data [] = .error .valueFail ∧
    createNewPhabricatorCallsign "123".data [] = .error .nameFail ∧
    runPass (fun _ => true) ∅ {groupUrl} [] "root".data ⟨false, false⟩ =
      .error () ∧
    runPass (fun _ => true) ∅ {digitsUrl} [] "root".data ⟨false, false⟩ =
      .ok ⟨1, [(digitsUrl, none)], [], [], []⟩ := by
  refine ⟨rfl, rfl, ?_, ?_⟩
  · rw [runPass_oneAdd]
    rfl
  · rw [runPass_oneAdd]
    rfl
